import Mathlib

/-
Verification of the dance-attendance application's core logic:
the attendance aggregator, the points ledger, the awards evaluators
(Student of the Month, Most Improved, Student of the Year), the batch
award runners with duplicate prevention, and the sync reconciler's
`mergeData` merge.

Modelling conventions:
* ISO timestamp strings are modelled by their parsed numeric value
  (`Int`, as in `Date.getTime()`); a field of type `Option Int` is
  `none` exactly when the source string is missing or parses to `NaN`
  (in which case every JavaScript `<`/`>` comparison on it is false,
  which the embedding reproduces by explicit matching).
* JavaScript numbers appearing in scores and percentages are modelled
  as exact rationals (`ℚ`).
* The `marks` object of a register session is modelled as an
  association list from student id to mark; `marks?.[id]` is the first
  binding for the id, `none` when absent.
* `Array.prototype.sort` (stable since ES2019) is modelled by
  `List.mergeSort`, which is stable, with the boolean ordering induced
  by the source comparator.  `localeCompare` on names is modelled by
  the code-point order on `String`.
-/

/-- Attendance mark recorded for a student in a register session
(the value type of the `marks` object in the source data model). -/
inductive Mark
  | PRESENT
  | LATE
  | ABSENT
  | EXCUSED
deriving DecidableEq, Repr

/-- Student record (fields used by the awards/attendance logic).
`joinedAt` is the parsed `joinedAtISO`; `none` models an invalid
(`NaN`) join date. -/
structure Student where
  id : String
  name : String
  classId : String
  joinedAt : Option Int
  archived : Bool
  deleted : Bool
deriving DecidableEq, Repr

/-- Register session record. `startedAt` is the parsed `startedAtISO`
(`none` models an unparseable date); `marks` is the per-student mark
map. -/
structure RegisterSession where
  id : String
  classId : String
  startedAt : Option Int
  marks : List (String × Mark)
deriving DecidableEq, Repr

/-- Point-grant event of the points ledger. `createdAt` is the parsed
`createdAtISO` (`none` models an unparseable date). -/
structure PointEvent where
  id : String
  studentId : String
  classId : String
  points : Int
  createdAt : Option Int
  deleted : Bool
deriving DecidableEq, Repr

/-- Result of the attendance aggregator: numerator, denominator and
the 0-to-1 attendance fraction `pct01`. -/
structure AttStats where
  attended : Nat
  counted : Nat
  pct01 : ℚ
deriving DecidableEq, Repr

/-- Source helper `markToAttended`: a mark counts as attended when it
is PRESENT or LATE. -/
def markToAttended (mark : Mark) : Bool :=
  mark = Mark.PRESENT || mark = Mark.LATE

/-- Source helper `isExcused`. -/
def isExcused (mark : Mark) : Bool :=
  mark = Mark.EXCUSED

/-- Lookup `sess.marks?.[studentId]` of the source. -/
def sessionMark (sess : RegisterSession) (studentId : String) : Option Mark :=
  sess.marks.lookup studentId

/-- One iteration of the loop body of `computeAttendanceStatsForStudent`:
the (attended, counted) increments contributed by a single session.
Each `continue` of the source corresponds to a `(0, 0)` branch. -/
def sessionContribution (student : Student) (rangeFrom rangeTo : Int)
    (sess : RegisterSession) : Nat × Nat :=
  match sess.startedAt with
  | none => (0, 0)
  | some dt =>
    if dt < rangeFrom || rangeTo < dt then (0, 0)
    else
      let mark := sessionMark sess student.id
      let eligible : Bool :=
        match student.joinedAt with
        | some j => decide (j ≤ dt) || mark.isSome
        | none => mark.isSome
      if !eligible then (0, 0)
      else
        match mark with
        | none => (0, 0)
        | some m =>
          if isExcused m then (0, 0)
          else (if markToAttended m then 1 else 0, 1)

/-- Accumulated (attended, counted) of the session loop of
`computeAttendanceStatsForStudent`. -/
def attCounts (student : Student) (rangeFrom rangeTo : Int) :
    List RegisterSession → Nat × Nat
  | [] => (0, 0)
  | sess :: rest =>
    let c := sessionContribution student rangeFrom rangeTo sess
    let r := attCounts student rangeFrom rangeTo rest
    (c.1 + r.1, c.2 + r.2)

/-- Source `computeAttendanceStatsForStudent`: attendance statistics of
one student over the inclusive range `[rangeFrom, rangeTo]` and the
sessions of the student's class. -/
def computeAttendanceStatsForStudent (student : Student)
    (rangeFrom rangeTo : Int) (sessionsInClass : List RegisterSession) :
    AttStats :=
  let c := attCounts student rangeFrom rangeTo sessionsInClass
  { attended := c.1
    counted := c.2
    pct01 := if 0 < c.2 then (c.1 : ℚ) / (c.2 : ℚ) else 0 }

/-- Specification-side predicate: the session lies in range, is
eligible for the student (session start at or after the join date, or
the student has an explicit mark) and carries a non-EXCUSED mark, so
the aggregator counts it in the denominator. -/
def countedSession (student : Student) (rangeFrom rangeTo : Int)
    (sess : RegisterSession) : Bool :=
  match sess.startedAt with
  | none => false
  | some dt =>
    let mark := sessionMark sess student.id
    let eligible : Bool :=
      match student.joinedAt with
      | some j => decide (j ≤ dt) || mark.isSome
      | none => mark.isSome
    decide (rangeFrom ≤ dt) && decide (dt ≤ rangeTo) && eligible &&
      (match mark with
       | some m => !isExcused m
       | none => false)

/-- Specification-side predicate: counted session whose mark is PRESENT
or LATE, so the aggregator counts it in the numerator. -/
def attendedSession (student : Student) (rangeFrom rangeTo : Int)
    (sess : RegisterSession) : Bool :=
  countedSession student rangeFrom rangeTo sess &&
    (match sessionMark sess student.id with
     | some m => markToAttended m
     | none => false)

/-- One iteration of the loop body of `sumPointsForStudent`: the
amount one event adds to the total.  Each `continue` of the source is
a zero contribution. -/
def pointContribution (studentId classId : String)
    (rangeFrom rangeTo : Int) (p : PointEvent) : Int :=
  if p.classId ≠ classId then 0
  else if p.studentId ≠ studentId then 0
  else
    match p.createdAt with
    | none => 0
    | some dt => if dt < rangeFrom || rangeTo < dt then 0 else p.points

/-- Source `sumPointsForStudent` (points ledger): total of the `points`
field over the events matching the class, the student, and the
inclusive `createdAt` range. -/
def sumPointsForStudent (studentId classId : String)
    (rangeFrom rangeTo : Int) : List PointEvent → Int
  | [] => 0
  | p :: rest =>
    pointContribution studentId classId rangeFrom rangeTo p +
      sumPointsForStudent studentId classId rangeFrom rangeTo rest

/-- Specification-side predicate used to characterise the points
ledger: the event matches the student and class and its creation date
lies within the inclusive range. -/
def pointMatches (studentId classId : String) (rangeFrom rangeTo : Int)
    (p : PointEvent) : Bool :=
  p.classId == classId && p.studentId == studentId &&
    (match p.createdAt with
     | some dt => decide (rangeFrom ≤ dt) && decide (dt ≤ rangeTo)
     | none => false)

/-- Award period type of `awards.types.ts`. -/
inductive PeriodType
  | MONTH
  | YEAR
  | CUSTOM
deriving DecidableEq, Repr

/-- Persisted award record (`AwardUnlock` of `awards.types.ts`). -/
structure AwardUnlock where
  id : String
  awardId : String
  studentId : String
  classId : String
  periodType : PeriodType
  periodKey : String
  unlockedAtISO : String
  decidedBy : String
deriving DecidableEq, Repr

/-- Ranked candidate row produced by the award evaluators
(`AwardCandidate` of `awards.types.ts`; the optional fields are only
set by the Most Improved evaluator). -/
structure AwardCandidate where
  student : Student
  score : ℚ
  attendancePct01 : ℚ
  pointsTotal : Int
  slopePerDay : Option ℚ
  sessionsUsed : Option Nat
deriving DecidableEq, Repr

/-- Source `awardExists`: some existing award matches the
`(awardId, studentId, periodKey)` triple. -/
def awardExists (existingAwards : List AwardUnlock)
    (awardId studentId periodKey : String) : Bool :=
  existingAwards.any (fun a =>
    a.awardId == awardId && a.studentId == studentId &&
      a.periodKey == periodKey)

/-- The `(awardId, studentId, periodKey)` uniqueness key of an award. -/
def awardTriple (a : AwardUnlock) : String × String × String :=
  (a.awardId, a.studentId, a.periodKey)

/-- Filter `students.filter(s => s.classId === classId && !s.archived
&& !s.deleted)` shared by the three evaluators. -/
def classStudentsOf (classId : String) (students : List Student) :
    List Student :=
  students.filter (fun s =>
    s.classId == classId && !s.archived && !s.deleted)

/-- Filter `sessions.filter(s => s.classId === classId)` shared by the
three evaluators. -/
def classSessionsOf (classId : String) (sessions : List RegisterSession) :
    List RegisterSession :=
  sessions.filter (fun s => s.classId == classId)

/-- Comparator combinator: sort descending by the key `k`, breaking
ties with `tie`.  This is the shape of each branch
`if (b.k !== a.k) return b.k - a.k` of the source comparators: in the
sorted order `a` precedes (or ties) `b` exactly when the comparator
value is nonpositive. -/
def keyDescLE {α β : Type} [LinearOrder β] (k : α → β)
    (tie : α → α → Bool) (a b : α) : Bool :=
  if k a = k b then tie a b else decide (k b < k a)

/-- Final tie-break of every evaluator comparator:
`a.student.name.localeCompare(b.student.name)`, ascending (modelled by
code-point order). -/
def nameAscLE (a b : AwardCandidate) : Bool :=
  decide (a.student.name ≤ b.student.name)

/-- Comparator of `evaluateStudentOfMonth` and `evaluateStudentOfYear`:
descending score, then descending attendance, then descending points
total, then ascending name. -/
def candidateCompareLE (a b : AwardCandidate) : Bool :=
  keyDescLE AwardCandidate.score
    (keyDescLE AwardCandidate.attendancePct01
      (keyDescLE AwardCandidate.pointsTotal nameAscLE)) a b

/-- Comparator of `evaluateMostImproved`: descending score (slope),
then descending session count, then ascending name. -/
def miCompareLE (a b : AwardCandidate) : Bool :=
  keyDescLE AwardCandidate.score
    (keyDescLE (fun c => c.sessionsUsed.getD 0) nameAscLE) a b

/-- Base rows of `evaluateStudentOfMonth` / `evaluateStudentOfYear`:
per class student, the attendance fraction and the points total over
the range. -/
def somBase (classId : String) (students : List Student)
    (sessions : List RegisterSession) (points : List PointEvent)
    (rangeFrom rangeTo : Int) : List (Student × ℚ × Int) :=
  (classStudentsOf classId students).map (fun st =>
    (st,
     (computeAttendanceStatsForStudent st rangeFrom rangeTo
        (classSessionsOf classId sessions)).pct01,
     sumPointsForStudent st.id classId rangeFrom rangeTo points))

/-- `Math.max(0, ...rows.map(r => r.pointsTotal))` of the source. -/
def maxPtsOf (rows : List (Student × ℚ × Int)) : Int :=
  rows.foldl (fun m r => max m r.2.2) 0

/-- Scoring step shared by `evaluateStudentOfMonth` (weights 0.7/0.3)
and `evaluateStudentOfYear` (weights 0.6/0.4): normalise the points
total by the maximum and blend it with the attendance fraction. -/
def scoreRows (wAtt wPts : ℚ) (rows : List (Student × ℚ × Int)) :
    List AwardCandidate :=
  let maxPts := maxPtsOf rows
  rows.map (fun r =>
    let ptsNorm : ℚ := if 0 < maxPts then (r.2.2 : ℚ) / (maxPts : ℚ) else 0
    { student := r.1
      score := wAtt * r.2.1 + wPts * ptsNorm
      attendancePct01 := r.2.1
      pointsTotal := r.2.2
      slopePerDay := none
      sessionsUsed := none })

/-- Source `evaluateStudentOfMonth`.  The `existingAwards` argument is
accepted (as in the source signature) but, as in the source body, never
read. -/
def evaluateStudentOfMonth (classId : String) (students : List Student)
    (sessions : List RegisterSession) (points : List PointEvent)
    (rangeFrom rangeTo : Int) (existingAwards : List AwardUnlock) :
    List AwardCandidate :=
  let _ := existingAwards
  (scoreRows 0.7 0.3
      (somBase classId students sessions points rangeFrom rangeTo)).mergeSort
    candidateCompareLE

/-- Ambient clock/calendar of the JavaScript runtime, passed explicitly:
`nowMs` is `Date.now()`; `nowISO` is `new Date().toISOString()`;
`ayStart`, `ayEnd` and `ayKey` are the bounds (Sep 1 .. Jul 31, as
timestamps) and key string produced by `getAcademicYearBounds(now)`;
`monthKey t` is the `"YYYY-MM"` period key the source formats from the
local calendar fields of the timestamp `t`. -/
structure ClockEnv where
  nowMs : Int
  nowISO : String
  ayStart : Int
  ayEnd : Int
  ayKey : String
  monthKey : Int → String

/-- Per-student data points collected by `evaluateMostImproved`: for
each class session inside the academic-year window carrying a
non-excused mark for the student, the pair of days-since-year-start
(`tDays`, exact rational) and the binary attended outcome. -/
def miRows (st : Student) (ayStart ayEnd : Int) :
    List RegisterSession → List (ℚ × ℚ)
  | [] => []
  | sess :: rest =>
    let r := miRows st ayStart ayEnd rest
    match sess.startedAt with
    | none => r
    | some dt =>
      if dt < ayStart || ayEnd < dt then r
      else
        match sessionMark sess st.id with
        | none => r
        | some m =>
          if isExcused m then r
          else
            (((dt - ayStart : ℤ) : ℚ) / 86400000,
             if markToAttended m then (1 : ℚ) else 0) :: r

/-- Source `linearRegressionSlope`: ordinary-least-squares slope of
`ys` against `xs` (0 when fewer than two points or the denominator
vanishes).  The source indexes both arrays in lockstep; this is the
fold over their zip (every call site passes equal lengths). -/
def linearRegressionSlope (xs ys : List ℚ) : ℚ :=
  let n : ℚ := (xs.length : ℚ)
  if xs.length < 2 then 0
  else
    let pts := xs.zip ys
    let sumX := pts.foldl (fun s p => s + p.1) 0
    let sumY := pts.foldl (fun s p => s + p.2) 0
    let sumXY := pts.foldl (fun s p => s + p.1 * p.2) 0
    let sumXX := pts.foldl (fun s p => s + p.1 * p.1) 0
    let denom := n * sumXX - sumX * sumX
    if denom = 0 then 0 else (n * sumXY - sumX * sumY) / denom

/-- Ascending-by-`tDays` comparator of the data-point sort inside
`evaluateMostImproved`. -/
def tDaysLE (a b : ℚ × ℚ) : Bool :=
  decide (a.1 ≤ b.1)

/-- Source `evaluateMostImproved`: per student with at least 4 data
points in the academic-year window, the OLS slope of the time-ordered
binary outcomes; rows ranked by the Most Improved comparator. -/
def evaluateMostImproved (env : ClockEnv) (classId : String)
    (students : List Student) (sessions : List RegisterSession) :
    List AwardCandidate :=
  let classStudents := classStudentsOf classId students
  let classSessions := classSessionsOf classId sessions
  let rows := classStudents.filterMap (fun st =>
    let sessRows := miRows st env.ayStart env.ayEnd classSessions
    if sessRows.length < 4 then none
    else
      let sorted := sessRows.mergeSort tDaysLE
      let slope := linearRegressionSlope (sorted.map (·.1)) (sorted.map (·.2))
      some { student := st
             score := slope
             attendancePct01 := 0
             pointsTotal := 0
             slopePerDay := some slope
             sessionsUsed := some sessRows.length })
  rows.mergeSort miCompareLE

/-- Source `evaluateStudentOfYear`: as Student of the Month but over
the academic-year window with weights 0.6/0.4. -/
def evaluateStudentOfYear (env : ClockEnv) (classId : String)
    (students : List Student) (sessions : List RegisterSession)
    (points : List PointEvent) : List AwardCandidate :=
  (scoreRows 0.6 0.4
      (somBase classId students sessions points env.ayStart env.ayEnd)).mergeSort
    candidateCompareLE

/-- The three automatic award types. -/
inductive AwardType
  | student_of_month
  | most_improved_year
  | student_of_year
deriving DecidableEq, Repr

/-- String id of an award type, as used for `awardId` and in the
generated record id. -/
def AwardType.key : AwardType → String
  | .student_of_month => "student_of_month"
  | .most_improved_year => "most_improved_year"
  | .student_of_year => "student_of_year"

/-- Source `autoAward`: evaluate the requested award for one class and
wrap the top-ranked candidate (if any) in an `AwardUnlock` decided by
SYSTEM.  Returns `none` for Student of the Month when either range
bound is absent, and when there is no candidate. -/
def autoAward (env : ClockEnv) (awardType : AwardType) (classId : String)
    (students : List Student) (sessions : List RegisterSession)
    (points : List PointEvent) (rangeFrom rangeTo : Option Int)
    (existingAwards : List AwardUnlock) : Option AwardUnlock :=
  let candidates? : Option (List AwardCandidate) :=
    match awardType with
    | .student_of_month =>
      match rangeFrom, rangeTo with
      | some f, some t =>
        some (evaluateStudentOfMonth classId students sessions points f t
          existingAwards)
      | _, _ => none
    | .most_improved_year =>
      some (evaluateMostImproved env classId students sessions)
    | .student_of_year =>
      some (evaluateStudentOfYear env classId students sessions points)
  match candidates? with
  | none => none
  | some [] => none
  | some (winner :: _) =>
    let periodKey :=
      match awardType, rangeFrom with
      | .student_of_month, some f => env.monthKey f
      | _, _ => env.ayKey
    let periodType :=
      if awardType = .student_of_month then PeriodType.MONTH
      else PeriodType.YEAR
    some { id := "auto_" ++ awardType.key ++ "_" ++ classId ++ "_" ++
             periodKey ++ "_" ++ toString env.nowMs
           awardId := awardType.key
           studentId := winner.student.id
           classId := classId
           periodType := periodType
           periodKey := periodKey
           unlockedAtISO := env.nowISO
           decidedBy := "SYSTEM" }

/-- `[...new Set(xs)]` of the source: deduplicate keeping first
occurrences. -/
def jsSetDedup (l : List String) : List String :=
  l.foldl (fun acc c => if c ∈ acc then acc else acc ++ [c]) []

/-- One guarded push of `runMonthlyAwards`: append the candidate award
unless its triple already exists in the union of the persisted awards
and the awards created earlier in the batch. -/
def pushIfNew (existingAwards newAwards : List AwardUnlock)
    (cand : Option AwardUnlock) : List AwardUnlock :=
  match cand with
  | none => newAwards
  | some a =>
    if awardExists (existingAwards ++ newAwards) a.awardId a.studentId
        a.periodKey then newAwards
    else newAwards ++ [a]

/-- Per-class body of the `runMonthlyAwards` loop: the three guarded
award checks, in source order. -/
def runMonthlyAwardsStep (env : ClockEnv) (students : List Student)
    (sessions : List RegisterSession) (points : List PointEvent)
    (existingAwards : List AwardUnlock) (newAwards : List AwardUnlock)
    (classId : String) : List AwardUnlock :=
  let monthAgo := env.nowMs - 30 * 24 * 60 * 60 * 1000
  let n1 := pushIfNew existingAwards newAwards
    (autoAward env .student_of_month classId students sessions points
      (some monthAgo) (some env.nowMs) (existingAwards ++ newAwards))
  let n2 := pushIfNew existingAwards n1
    (autoAward env .most_improved_year classId students sessions points
      none none (existingAwards ++ n1))
  let n3 := pushIfNew existingAwards n2
    (autoAward env .student_of_year classId students sessions points
      none none (existingAwards ++ n2))
  n3

/-- Source `runMonthlyAwards`: over each distinct class id, run the
three automatic award checks against the union of persisted awards and
the batch so far, collecting the newly created awards. -/
def runMonthlyAwards (env : ClockEnv) (students : List Student)
    (sessions : List RegisterSession) (points : List PointEvent)
    (existingAwards : List AwardUnlock) : List AwardUnlock :=
  let classIds := jsSetDedup (students.map (fun s => s.classId))
  classIds.foldl
    (runMonthlyAwardsStep env students sessions points existingAwards) []

/-- Source `runAwardsOnRegisterClose`: the Student-of-the-Month check
for one class over the trailing 30-day window. -/
def runAwardsOnRegisterClose (env : ClockEnv) (classId : String)
    (students : List Student) (sessions : List RegisterSession)
    (points : List PointEvent) (existingAwards : List AwardUnlock) :
    List AwardUnlock :=
  let monthAgo := env.nowMs - 30 * 24 * 60 * 60 * 1000
  match autoAward env .student_of_month classId students sessions points
      (some monthAgo) (some env.nowMs) existingAwards with
  | none => []
  | some a =>
    if awardExists existingAwards a.awardId a.studentId a.periodKey then []
    else [a]

/-- Generic synced record handled by the sync reconciler.  `payload`
abstracts every entity field other than `id`, `updatedAt` and `synced`.
`updatedAt` is the parsed timestamp; `none` models a missing, empty or
unparseable `updatedAt` string (each of which makes the source guard
`item.updatedAt && remoteItem.updatedAt && new Date(..) > new Date(..)`
keep the remote record).  `synced` is `none` when the property is
absent from the record. -/
structure SyncRec where
  id : String
  updatedAt : Option Int
  synced : Option Bool
  payload : String
deriving DecidableEq, Repr

/-- The spread `{ ...item, synced: b }` of the source. -/
def setSynced (b : Bool) (r : SyncRec) : SyncRec :=
  { r with synced := some b }

/-- JavaScript `Map.set` keyed by record id over an association list in
insertion order: replace in place when the key exists, append
otherwise. -/
def mapSet (m : List SyncRec) (r : SyncRec) : List SyncRec :=
  if m.any (fun x => x.id == r.id) then
    m.map (fun x => if x.id = r.id then r else x)
  else m ++ [r]

/-- JavaScript `Map.get` keyed by record id: first entry with the id. -/
def mapGet (m : List SyncRec) (i : String) : Option SyncRec :=
  m.find? (fun x => x.id == i)

/-- The guard `item.updatedAt && remoteItem.updatedAt &&
new Date(item.updatedAt) > new Date(remoteItem.updatedAt)` of
`mergeData`: true only when both timestamps are present and valid and
the local one is strictly newer. -/
def localNewer (l r : SyncRec) : Bool :=
  match l.updatedAt, r.updatedAt with
  | some a, some b => decide (b < a)
  | _, _ => false

/-- First phase of `mergeData`: seed the map with every remote record
marked `synced = true`. -/
def seedRemote (remoteData : List SyncRec) : List SyncRec :=
  remoteData.foldl (fun m item => mapSet m (setSynced true item)) []

/-- Second-phase step of `mergeData` for one local record: insert it
marked `synced = false` when its id is absent, replace the entry when
the local record is strictly newer, otherwise keep the map unchanged. -/
def mergeStep (m : List SyncRec) (item : SyncRec) : List SyncRec :=
  match mapGet m item.id with
  | none => mapSet m (setSynced false item)
  | some remoteItem =>
    if localNewer item remoteItem then mapSet m (setSynced false item)
    else m

/-- Source `mergeData` of the sync reconciler: `Array.from` of the map
obtained by seeding with the remote collection and then folding the
local records through `mergeStep`.  A `null` remote collection returns
the local data unchanged. -/
def mergeData (localData : List SyncRec) (remoteData : Option (List SyncRec)) :
    List SyncRec :=
  match remoteData with
  | none => localData
  | some rd => localData.foldl mergeStep (seedRemote rd)

/-- Student X of the end-to-end attendance scenario: joined
2025-01-01.  Timestamps are encoded as `YYYYMMDD` integers, an
order-preserving stand-in for epoch milliseconds. -/
def balletStudentX : Student :=
  { id := "stuX", name := "Student X", classId := "balletA",
    joinedAt := some 20250101, archived := false, deleted := false }

/-- The three sessions of the end-to-end attendance scenario:
2025-01-05 PRESENT, 2025-01-12 ABSENT, 2025-01-19 EXCUSED for
student X (a second enrolled student Y also carries marks). -/
def balletSessions : List RegisterSession :=
  [ { id := "s1", classId := "balletA", startedAt := some 20250105,
      marks := [("stuX", Mark.PRESENT), ("stuY", Mark.PRESENT)] },
    { id := "s2", classId := "balletA", startedAt := some 20250112,
      marks := [("stuX", Mark.ABSENT), ("stuY", Mark.PRESENT)] },
    { id := "s3", classId := "balletA", startedAt := some 20250119,
      marks := [("stuX", Mark.EXCUSED), ("stuY", Mark.LATE)] } ]

/-- Point events of the points-ledger scenario: grants of +5, +3, +2 to
student Y inside the range `[1, 20]` and a fourth grant of +4 dated 21,
one day past the `to` boundary. -/
def pointEventsY : List PointEvent :=
  [ { id := "p1", studentId := "stuY", classId := "balletA", points := 5,
      createdAt := some 10, deleted := false },
    { id := "p2", studentId := "stuY", classId := "balletA", points := 3,
      createdAt := some 12, deleted := false },
    { id := "p3", studentId := "stuY", classId := "balletA", points := 2,
      createdAt := some 15, deleted := false },
    { id := "p4", studentId := "stuY", classId := "balletA", points := 4,
      createdAt := some 21, deleted := false } ]

/-- A soft-deleted point event inside the query range, used to probe
whether the ledger filters the `deleted` flag. -/
def deletedPointEvent : PointEvent :=
  { id := "pd", studentId := "stuZ", classId := "c1", points := 5,
    createdAt := some 5, deleted := true }

/-- Alice of the anti-repeat probe. -/
def c6Alice : Student :=
  { id := "alice", name := "Alice", classId := "c1", joinedAt := some 0,
    archived := false, deleted := false }

/-- Bob of the anti-repeat probe. -/
def c6Bob : Student :=
  { id := "bob", name := "Bob", classId := "c1", joinedAt := some 0,
    archived := false, deleted := false }

/-- Roster probing the anti-repeat rule: Alice attends everything,
Bob nothing, so Alice ranks first. -/
def c6Students : List Student :=
  [c6Alice, c6Bob]

/-- Sessions for the anti-repeat probe. -/
def c6Sessions : List RegisterSession :=
  [ { id := "t1", classId := "c1", startedAt := some 10,
      marks := [("alice", Mark.PRESENT), ("bob", Mark.ABSENT)] },
    { id := "t2", classId := "c1", startedAt := some 20,
      marks := [("alice", Mark.PRESENT), ("bob", Mark.ABSENT)] } ]

/-- Existing award naming Alice the previous period's Student of the
Month. -/
def priorWinnerAward : AwardUnlock :=
  { id := "aw1", awardId := "student_of_month", studentId := "alice",
    classId := "c1", periodType := PeriodType.MONTH, periodKey := "2025-09",
    unlockedAtISO := "2025-09-30T00:00:00.000Z", decidedBy := "SYSTEM" }

/-- Local record with the older timestamp of the merge examples. -/
def recLocalOld : SyncRec :=
  { id := "a", updatedAt := some 0, synced := none, payload := "local" }

/-- Remote record with the newer timestamp of the merge examples; note
its `synced` property is absent. -/
def recRemoteNew : SyncRec :=
  { id := "a", updatedAt := some 5, synced := none, payload := "remote" }

/-- Local record strictly newer than `recRemoteNew`. -/
def recLocalNewest : SyncRec :=
  { id := "a", updatedAt := some 9, synced := none, payload := "localNew" }

/-- Local record without a parseable `updatedAt`. -/
def recLocalNoStamp : SyncRec :=
  { id := "a", updatedAt := none, synced := none, payload := "nostamp" }

/-- Ranking order of the Student of the Month/Year comparator, stated
propositionally: descending score, ties broken by descending
attendance, then descending points total, then ascending name. -/
def somRankLE (a b : AwardCandidate) : Prop :=
  b.score < a.score ∨ (a.score = b.score ∧
    (b.attendancePct01 < a.attendancePct01 ∨
      (a.attendancePct01 = b.attendancePct01 ∧
        (b.pointsTotal < a.pointsTotal ∨
          (a.pointsTotal = b.pointsTotal ∧
            a.student.name ≤ b.student.name)))))

/-- Ranking order of the Most Improved comparator, stated
propositionally: descending slope score, ties broken by descending
session count, then ascending name. -/
def miRankLE (a b : AwardCandidate) : Prop :=
  b.score < a.score ∨ (a.score = b.score ∧
    (b.sessionsUsed.getD 0 < a.sessionsUsed.getD 0 ∨
      (a.sessionsUsed.getD 0 = b.sessionsUsed.getD 0 ∧
        a.student.name ≤ b.student.name)))

/-- Scored row of Alice in the anti-repeat probe: full attendance. -/
def c6AliceRow : AwardCandidate :=
  { student := c6Alice, score := 7/10, attendancePct01 := 1,
    pointsTotal := 0, slopePerDay := none, sessionsUsed := none }

/-- Scored row of Bob in the anti-repeat probe: zero attendance. -/
def c6BobRow : AwardCandidate :=
  { student := c6Bob, score := 0, attendancePct01 := 0,
    pointsTotal := 0, slopePerDay := none, sessionsUsed := none }

/-- The per-session loop increments are exactly the indicator values of
the two specification predicates. -/
theorem sessionContribution_eq (student : Student) (rangeFrom rangeTo : Int)
    (sess : RegisterSession) :
    sessionContribution student rangeFrom rangeTo sess =
      ((if attendedSession student rangeFrom rangeTo sess then 1 else 0),
       (if countedSession student rangeFrom rangeTo sess then 1 else 0)) := by
  unfold sessionContribution attendedSession countedSession
  cases hdt : sess.startedAt with
  | none => simp
  | some dt =>
    simp only
    by_cases h1 : dt < rangeFrom || rangeTo < dt
    · have h1a : ¬ (rangeFrom ≤ dt ∧ dt ≤ rangeTo) := by
        rcases Bool.or_eq_true_iff.mp h1 with h | h
        · have := of_decide_eq_true h
          omega
        · have := of_decide_eq_true h
          omega
      simp [h1, h1a]
    · have h1b : rangeFrom ≤ dt ∧ dt ≤ rangeTo := by
        rcases Bool.or_eq_false_iff.mp (Bool.of_not_eq_true h1) with ⟨ha, hb⟩
        constructor
        · exact Int.not_lt.mp (of_decide_eq_false ha)
        · exact Int.not_lt.mp (of_decide_eq_false hb)
      simp [h1, h1b.1, h1b.2]
      cases hel : (match student.joinedAt with
        | some j => decide (j ≤ dt) || (sessionMark sess student.id).isSome
        | none => (sessionMark sess student.id).isSome) with
      | false => simp
      | true =>
        simp
        cases hmk : sessionMark sess student.id with
        | none => simp
        | some m =>
          by_cases hex : isExcused m
          · simp [hex]
          · simp [hex]

/-- The loop accumulator of the aggregator counts exactly the sessions
satisfying the two specification predicates. -/
theorem attCounts_eq (student : Student) (rangeFrom rangeTo : Int)
    (sessions : List RegisterSession) :
    attCounts student rangeFrom rangeTo sessions =
      (sessions.countP (attendedSession student rangeFrom rangeTo),
       sessions.countP (countedSession student rangeFrom rangeTo)) := by
  induction sessions with
  | nil => rfl
  | cons s rest ih =>
    simp only [attCounts, ih, sessionContribution_eq, List.countP_cons]
    simp [Prod.mk.injEq, Nat.add_comm]

/-- C1: the attendance aggregator counts exactly the in-range eligible
sessions with a non-EXCUSED mark, the attended ones being those marked
PRESENT or LATE, with `pct01 = attended/counted` when `counted > 0` and
0 otherwise; on the end-to-end scenario (student X joined 2025-01-01,
sessions 2025-01-05 PRESENT, 2025-01-12 ABSENT, 2025-01-19 EXCUSED,
range 2025-01-01 .. 2025-01-31) it returns attended 1, counted 2 and
the fraction 1/2, i.e. fifty percent. -/
theorem attendance_aggregator_spec :
    (∀ (student : Student) (rangeFrom rangeTo : Int)
        (sessions : List RegisterSession),
      (computeAttendanceStatsForStudent student rangeFrom rangeTo
            sessions).counted
          = sessions.countP (countedSession student rangeFrom rangeTo) ∧
      (computeAttendanceStatsForStudent student rangeFrom rangeTo
            sessions).attended
          = sessions.countP (attendedSession student rangeFrom rangeTo) ∧
      (computeAttendanceStatsForStudent student rangeFrom rangeTo
            sessions).pct01
          = (if 0 < sessions.countP (countedSession student rangeFrom rangeTo)
             then ((sessions.countP (attendedSession student rangeFrom
                      rangeTo) : ℚ)
                   / (sessions.countP (countedSession student rangeFrom
                      rangeTo) : ℚ))
             else 0)) ∧
    computeAttendanceStatsForStudent balletStudentX 20250101 20250131
        balletSessions =
      { attended := 1, counted := 2, pct01 := 1/2 } ∧
    (100 : ℚ) * (computeAttendanceStatsForStudent balletStudentX 20250101
        20250131 balletSessions).pct01 = 50 := by
  refine ⟨fun student rangeFrom rangeTo sessions => ?_, ?_, ?_⟩
  · simp [computeAttendanceStatsForStudent, attCounts_eq]
  · rfl
  · have h : computeAttendanceStatsForStudent balletStudentX 20250101
        20250131 balletSessions =
        { attended := 1, counted := 2, pct01 := 1/2 } := rfl
    rw [h]
    norm_num

/-- A session whose mark for the student is EXCUSED contributes nothing
to either counter. -/
theorem sessionContribution_excused (student : Student)
    (rangeFrom rangeTo : Int) (sess : RegisterSession)
    (h : sessionMark sess student.id = some Mark.EXCUSED) :
    sessionContribution student rangeFrom rangeTo sess = (0, 0) := by
  unfold sessionContribution
  cases hdt : sess.startedAt with
  | none => rfl
  | some dt =>
    simp only [h]
    split
    · rfl
    · split
      · rfl
      · simp [isExcused]

/-- Removing the EXCUSED-marked sessions leaves the loop accumulator
unchanged. -/
theorem attCounts_filter_excused (student : Student)
    (rangeFrom rangeTo : Int) (sessions : List RegisterSession) :
    attCounts student rangeFrom rangeTo
        (sessions.filter (fun s =>
          !(sessionMark s student.id == some Mark.EXCUSED))) =
      attCounts student rangeFrom rangeTo sessions := by
  induction sessions with
  | nil => rfl
  | cons s rest ih =>
    by_cases h : sessionMark s student.id = some Mark.EXCUSED
    · have hp : (!(sessionMark s student.id == some Mark.EXCUSED)) = false := by
        simp [h]
      simp only [List.filter_cons, hp, attCounts, ih,
        sessionContribution_excused student rangeFrom rangeTo s h]
      simp [attCounts, ih]
    · have hp : (!(sessionMark s student.id == some Mark.EXCUSED)) = true := by
        simp [h]
      simp [List.filter_cons, hp, attCounts, ih]

/-- C9: EXCUSED marks never affect the aggregator: for every student,
range and session list, the output equals the output on the same
inputs with every session whose mark for the student is EXCUSED
removed. -/
theorem excused_marks_never_affect_stats :
    ∀ (student : Student) (rangeFrom rangeTo : Int)
      (sessions : List RegisterSession),
      computeAttendanceStatsForStudent student rangeFrom rangeTo
          (sessions.filter (fun s =>
            !(sessionMark s student.id == some Mark.EXCUSED))) =
        computeAttendanceStatsForStudent student rangeFrom rangeTo
          sessions := by
  intro student rangeFrom rangeTo sessions
  simp [computeAttendanceStatsForStudent, attCounts_filter_excused]

/-- Each event contributes the indicator value of the ledger
specification predicate. -/
theorem pointContribution_eq (studentId classId : String)
    (rangeFrom rangeTo : Int) (p : PointEvent) :
    pointContribution studentId classId rangeFrom rangeTo p =
      (if pointMatches studentId classId rangeFrom rangeTo p then p.points
       else 0) := by
  unfold pointContribution pointMatches
  by_cases h1 : p.classId = classId
  · by_cases h2 : p.studentId = studentId
    · cases h3 : p.createdAt with
      | none => simp [h1, h2, h3]
      | some dt =>
        by_cases h4 : dt < rangeFrom
        · simp [h1, h2, h3, h4]
          omega
        · by_cases h5 : rangeTo < dt
          · simp [h1, h2, h3, h4, h5]
            omega
          · have h6 : rangeFrom ≤ dt ∧ dt ≤ rangeTo := ⟨by omega, by omega⟩
            simp [h1, h2, h3, h4, h5, h6]
    · simp [h1, h2]
  · simp [h1]

/-- C7 (amended): `sumPointsForStudent` equals the sum of the `points`
field over exactly the events whose student and class match and whose
creation date lies within the inclusive range — regardless of the
`deleted` flag, which the function does not consult; on the ledger
scenario (+5, +3, +2 in range, +4 one day past `to`) it returns 10,
the fourth grant contributing nothing. -/
theorem sumPointsForStudent_spec :
    (∀ (studentId classId : String) (rangeFrom rangeTo : Int)
        (points : List PointEvent),
      sumPointsForStudent studentId classId rangeFrom rangeTo points =
        ((points.filter (pointMatches studentId classId rangeFrom
            rangeTo)).map PointEvent.points).sum) ∧
    sumPointsForStudent "stuY" "balletA" 1 20 pointEventsY = 10 := by
  constructor
  · intro studentId classId rangeFrom rangeTo points
    induction points with
    | nil => rfl
    | cons p rest ih =>
      simp only [sumPointsForStudent, pointContribution_eq, ih,
        List.filter_cons]
      split <;> simp
  · decide

/-- C7 (counterexample): a soft-deleted point event inside the range is
still summed, so the ledger does not restrict itself to non-deleted
records as the claim states. -/
theorem sumPoints_counts_deleted_counterexample :
    sumPointsForStudent "stuZ" "c1" 1 10 [deletedPointEvent] = 5 ∧
      deletedPointEvent.deleted = true := by
  decide

/-- Head-positive case of `List.find?` with the predicate explicit. -/
theorem findCons_pos (pred : SyncRec → Bool) (a : SyncRec)
    (l : List SyncRec) (h : pred a = true) :
    List.find? pred (a :: l) = some a :=
  List.find?_cons_of_pos l h

/-- Head-negative case of `List.find?` with the predicate explicit. -/
theorem findCons_neg (pred : SyncRec → Bool) (a : SyncRec)
    (l : List SyncRec) (h : pred a = false) :
    List.find? pred (a :: l) = List.find? pred l :=
  List.find?_cons_of_neg l (by simp [h])

/-- Replacing the (present) record with id `r.id` in place does not
change lookups under any other id. -/
theorem find_replace_ne (r : SyncRec) (i : String) (h : r.id ≠ i) :
    ∀ m : List SyncRec,
      (m.map (fun x => if x.id = r.id then r else x)).find?
          (fun x => x.id == i) =
        m.find? (fun x => x.id == i)
  | [] => rfl
  | x :: xs => by
    by_cases hx : x.id = r.id
    · have hxi : (x.id == i) = false := by
        simp [hx]
        intro hc
        exact h hc
      have hri : (r.id == i) = false := by simp [h]
      simp only [List.map_cons, if_pos hx]
      rw [findCons_neg (fun y => y.id == i) r _ hri,
        findCons_neg (fun y => y.id == i) x _ hxi]
      exact find_replace_ne r i h xs
    · simp only [List.map_cons, if_neg hx]
      by_cases hxi : x.id = i
      · have hp : (x.id == i) = true := by simp [hxi]
        rw [findCons_pos (fun y => y.id == i) x _ hp,
          findCons_pos (fun y => y.id == i) x _ hp]
      · have hp : (x.id == i) = false := by simp [hxi]
        rw [findCons_neg (fun y => y.id == i) x _ hp,
          findCons_neg (fun y => y.id == i) x _ hp]
        exact find_replace_ne r i h xs

/-- Lookup after in-place replacement, when some record with the
replaced id is present. -/
theorem find_replace_eq (r : SyncRec) (i : String) :
    ∀ m : List SyncRec,
      m.any (fun x => x.id == r.id) = true →
      (m.map (fun x => if x.id = r.id then r else x)).find?
          (fun x => x.id == i) =
        (if r.id = i then some r else m.find? (fun x => x.id == i))
  | [] => by intro hm; simp at hm
  | x :: xs => by
    intro hm
    by_cases hx : x.id = r.id
    · simp only [List.map_cons, if_pos hx]
      by_cases hri : r.id = i
      · have hp : (r.id == i) = true := by simp [hri]
        rw [findCons_pos (fun y => y.id == i) r _ hp, if_pos hri]
      · have hp : (r.id == i) = false := by simp [hri]
        have hxi : (x.id == i) = false := by
          simp [hx]
          intro hc
          exact hri hc
        rw [findCons_neg (fun y => y.id == i) r _ hp, if_neg hri,
          findCons_neg (fun y => y.id == i) x _ hxi]
        exact find_replace_ne r i hri xs
    · have hm2 : xs.any (fun y => y.id == r.id) = true := by
        simp only [List.any_cons] at hm
        rcases Bool.or_eq_true_iff.mp hm with hh | hh
        · exact absurd (by simpa using hh) hx
        · exact hh
      simp only [List.map_cons, if_neg hx]
      by_cases hxi : x.id = i
      · have hri : r.id ≠ i := fun hc => hx (by rw [hxi, hc])
        have hp : (x.id == i) = true := by simp [hxi]
        rw [findCons_pos (fun y => y.id == i) x _ hp,
          findCons_pos (fun y => y.id == i) x _ hp, if_neg hri]
      · have hp : (x.id == i) = false := by simp [hxi]
        rw [findCons_neg (fun y => y.id == i) x _ hp,
          findCons_neg (fun y => y.id == i) x _ hp]
        exact find_replace_eq r i xs hm2

/-- Lookup in an appended singleton when the appended id is absent
from the prefix. -/
theorem find_append_single (r : SyncRec) (i : String) :
    ∀ m : List SyncRec,
      m.any (fun x => x.id == r.id) = false →
      (m ++ [r]).find? (fun x => x.id == i) =
        (if r.id = i then some r else m.find? (fun x => x.id == i))
  | [] => by
    intro hm
    simp only [List.nil_append]
    by_cases hri : r.id = i
    · have hp : (r.id == i) = true := by simp [hri]
      rw [findCons_pos (fun y => y.id == i) r _ hp, if_pos hri]
    · have hp : (r.id == i) = false := by simp [hri]
      rw [findCons_neg (fun y => y.id == i) r _ hp, if_neg hri]
  | x :: xs => by
    intro hm
    simp only [List.any_cons, Bool.or_eq_false_iff] at hm
    have hxr : x.id ≠ r.id := by
      intro hc
      rw [show ((x.id == r.id) = true) by simp [hc]] at hm
      exact absurd hm.1 (by simp)
    simp only [List.cons_append]
    by_cases hxi : x.id = i
    · have hri : r.id ≠ i := fun hc => hxr (by rw [hxi, hc])
      have hp : (x.id == i) = true := by simp [hxi]
      rw [findCons_pos (fun y => y.id == i) x _ hp,
        findCons_pos (fun y => y.id == i) x _ hp, if_neg hri]
    · have hp : (x.id == i) = false := by simp [hxi]
      rw [findCons_neg (fun y => y.id == i) x _ hp,
        findCons_neg (fun y => y.id == i) x _ hp]
      exact find_append_single r i xs hm.2

/-- Lookup after a `Map.set`: the inserted record under its own id,
the previous answer under any other id. -/
theorem mapGet_mapSet (m : List SyncRec) (r : SyncRec) (i : String) :
    mapGet (mapSet m r) i = (if r.id = i then some r else mapGet m i) := by
  unfold mapGet mapSet
  by_cases hm : m.any (fun x => x.id == r.id) = true
  · rw [if_pos hm]
    exact find_replace_eq r i m hm
  · rw [if_neg hm]
    exact find_append_single r i m (Bool.of_not_eq_true hm)

/-- Ids after a `Map.set`: unchanged on replacement, the new id
appended on insertion. -/
theorem mapSet_ids (m : List SyncRec) (r : SyncRec) :
    (mapSet m r).map SyncRec.id =
      (if m.any (fun x => x.id == r.id) then m.map SyncRec.id
       else m.map SyncRec.id ++ [r.id]) := by
  unfold mapSet
  by_cases hm : m.any (fun x => x.id == r.id) = true
  · rw [if_pos hm, if_pos hm, List.map_map]
    apply List.map_congr_left
    intro y _
    by_cases hy : y.id = r.id
    · simp [Function.comp, hy]
    · simp [Function.comp, hy]
  · rw [if_neg hm, if_neg hm]
    simp

/-- A `Map.set` preserves distinctness of the ids. -/
theorem mapSet_nodup (m : List SyncRec) (r : SyncRec)
    (h : (m.map SyncRec.id).Nodup) :
    ((mapSet m r).map SyncRec.id).Nodup := by
  rw [mapSet_ids]
  by_cases hm : m.any (fun x => x.id == r.id) = true
  · rw [if_pos hm]
    exact h
  · rw [if_neg hm]
    have hnot : r.id ∉ m.map SyncRec.id := by
      intro hc
      rcases List.mem_map.mp hc with ⟨x, hx, hid⟩
      have : m.any (fun x => x.id == r.id) = true :=
        List.any_eq_true.mpr ⟨x, hx, by simp [hid]⟩
      exact hm this
    simp [List.nodup_append, h, hnot]

/-- A `mergeStep` leaves lookups under every other id unchanged. -/
theorem mapGet_mergeStep_ne (m : List SyncRec) (item : SyncRec)
    (i : String) (h : item.id ≠ i) :
    mapGet (mergeStep m item) i = mapGet m i := by
  unfold mergeStep
  cases hg : mapGet m item.id with
  | none =>
    rw [mapGet_mapSet]
    simp only [setSynced]
    rw [if_neg h]
  | some remoteItem =>
    by_cases hn : localNewer item remoteItem
    · simp only [if_pos hn]
      rw [mapGet_mapSet]
      simp only [setSynced]
      rw [if_neg h]
    · simp [hn]

/-- Folding local records none of which carries the id `i` leaves the
lookup under `i` unchanged. -/
theorem mapGet_foldl_mergeStep_ne (i : String) :
    ∀ (L : List SyncRec) (m : List SyncRec),
      (∀ l ∈ L, l.id ≠ i) →
      mapGet (L.foldl mergeStep m) i = mapGet m i
  | [], m, _ => rfl
  | x :: xs, m, h => by
    rw [List.foldl_cons,
      mapGet_foldl_mergeStep_ne i xs (mergeStep m x)
        (fun l hl => h l (List.mem_cons_of_mem x hl)),
      mapGet_mergeStep_ne m x i (h x (List.mem_cons_self x xs))]

/-- Seeding remote records none of which carries the id `i` leaves the
lookup under `i` unchanged. -/
theorem mapGet_foldl_seed_ne (i : String) :
    ∀ (R : List SyncRec) (m : List SyncRec),
      (∀ x ∈ R, x.id ≠ i) →
      mapGet (R.foldl (fun m item => mapSet m (setSynced true item)) m) i =
        mapGet m i
  | [], m, _ => rfl
  | x :: xs, m, h => by
    rw [List.foldl_cons,
      mapGet_foldl_seed_ne i xs _
        (fun l hl => h l (List.mem_cons_of_mem x hl)),
      mapGet_mapSet]
    simp only [setSynced]
    rw [if_neg (h x (List.mem_cons_self x xs))]

/-- With distinct remote ids, seeding resolves a present id to its
remote record marked synced. -/
theorem mapGet_seedFold (i : String) :
    ∀ (R : List SyncRec) (m : List SyncRec) (r : SyncRec),
      (R.map SyncRec.id).Nodup → r ∈ R → r.id = i →
      mapGet (R.foldl (fun m item => mapSet m (setSynced true item)) m) i =
        some (setSynced true r)
  | [], _, r, _, hr, _ => absurd hr (List.not_mem_nil r)
  | x :: xs, m, r, hnd, hr, hide => by
    rw [List.foldl_cons]
    rcases List.mem_cons.mp hr with hrx | hrtl
    · subst hrx
      have hxs : ∀ y ∈ xs, y.id ≠ i := by
        intro y hy hc
        have : r.id ∈ xs.map SyncRec.id := by
          rw [hide, ← hc]
          exact List.mem_map_of_mem SyncRec.id hy
        simp only [List.map_cons, List.nodup_cons] at hnd
        exact hnd.1 this
      rw [mapGet_foldl_seed_ne i xs _ hxs, mapGet_mapSet]
      simp only [setSynced]
      rw [if_pos hide]
    · simp only [List.map_cons, List.nodup_cons] at hnd
      exact mapGet_seedFold i xs _ r hnd.2 hrtl hide

/-- With distinct local ids, folding the local records resolves the
lookup under a local record's id according to the merge rule. -/
theorem mapGet_applyLocal :
    ∀ (L : List SyncRec) (m : List SyncRec) (l : SyncRec),
      (L.map SyncRec.id).Nodup → l ∈ L →
      mapGet (L.foldl mergeStep m) l.id =
        (match mapGet m l.id with
         | none => some (setSynced false l)
         | some r =>
           if localNewer l r then some (setSynced false l) else some r)
  | [], _, l, _, hl => absurd hl (List.not_mem_nil l)
  | x :: xs, m, l, hnd, hl => by
    rw [List.foldl_cons]
    rcases List.mem_cons.mp hl with hlx | hltl
    · subst hlx
      have hxs : ∀ y ∈ xs, y.id ≠ l.id := by
        intro y hy hc
        have : l.id ∈ xs.map SyncRec.id := by
          rw [← hc]
          exact List.mem_map_of_mem SyncRec.id hy
        simp only [List.map_cons, List.nodup_cons] at hnd
        exact hnd.1 this
      rw [mapGet_foldl_mergeStep_ne l.id xs _ hxs]
      unfold mergeStep
      cases hg : mapGet m l.id with
      | none =>
        rw [mapGet_mapSet]
        simp [setSynced]
      | some r =>
        by_cases hn : localNewer l r
        · simp only [if_pos hn]
          rw [mapGet_mapSet]
          simp [setSynced, hn]
        · simp [hn, hg]
      
    · simp only [List.map_cons, List.nodup_cons] at hnd
      have hxl : x.id ≠ l.id := by
        intro hc
        have hmem : l.id ∈ List.map SyncRec.id xs :=
          List.mem_map_of_mem SyncRec.id hltl
        rw [← hc] at hmem
        exact hnd.1 hmem
      rw [mapGet_applyLocal xs _ l hnd.2 hltl,
        mapGet_mergeStep_ne m x l.id hxl]

/-- Marking a record synced does not change how the timestamp guard
compares against it. -/
theorem localNewer_setSynced (l r : SyncRec) (b : Bool) :
    localNewer l (setSynced b r) = localNewer l r := rfl

/-- The timestamp guard never fires against a record with the same
timestamps. -/
theorem localNewer_self (l : SyncRec) : localNewer l l = false := by
  unfold localNewer
  cases l.updatedAt with
  | none => rfl
  | some a => simp

/-- A missing timestamp on either side makes the guard keep the remote
record. -/
theorem localNewer_none (l r : SyncRec)
    (h : l.updatedAt = none ∨ r.updatedAt = none) :
    localNewer l r = false := by
  unfold localNewer
  rcases h with h | h
  · rw [h]
  · rw [h]
    cases l.updatedAt <;> rfl

/-- Core characterisation of `mergeData` under distinct ids: the merged
entry for a shared id is the local record marked unsynced when the
local timestamp guard fires, and the remote record marked synced
otherwise. -/
theorem mergeData_get (L R : List SyncRec) (l r : SyncRec)
    (hL : (L.map SyncRec.id).Nodup) (hR : (R.map SyncRec.id).Nodup)
    (hl : l ∈ L) (hr : r ∈ R) (hid : l.id = r.id) :
    mapGet (mergeData L (some R)) l.id =
      some (if localNewer l r then setSynced false l
            else setSynced true r) := by
  unfold mergeData seedRemote
  rw [mapGet_applyLocal L _ l hL hl,
    mapGet_seedFold l.id R [] r hR hr hid.symm]
  by_cases hn : localNewer l r
  · simp [localNewer_setSynced, hn]
  · simp [localNewer_setSynced, hn]

/-- A successful lookup is a member of the underlying list. -/
theorem mapGet_mem (m : List SyncRec) (i : String) (r : SyncRec)
    (h : mapGet m i = some r) : r ∈ m :=
  List.mem_of_find?_eq_some h

/-- C2 (amended): when a local and a remote record share an id (in
collections with distinct ids), the merged entry is the remote record
with its synced flag set to true — every other field equal to the
remote version — unless the local record's timestamp guard fires
(both timestamps present and the local one strictly newer), in which
case the merged entry is the local record flagged synced = false. -/
theorem mergeData_remote_wins_upto_synced (L R : List SyncRec)
    (l r : SyncRec) (hL : (L.map SyncRec.id).Nodup)
    (hR : (R.map SyncRec.id).Nodup) (hl : l ∈ L) (hr : r ∈ R)
    (hid : l.id = r.id) :
    (localNewer l r = false →
       mapGet (mergeData L (some R)) l.id = some (setSynced true r) ∧
       setSynced true r ∈ mergeData L (some R)) ∧
    (localNewer l r = true →
       mapGet (mergeData L (some R)) l.id = some (setSynced false l) ∧
       setSynced false l ∈ mergeData L (some R)) := by
  have hcore := mergeData_get L R l r hL hR hl hr hid
  constructor
  · intro hn
    rw [hn] at hcore
    simp only [if_false, Bool.false_eq_true] at hcore
    exact ⟨by simpa using hcore, mapGet_mem _ _ _ (by simpa using hcore)⟩
  · intro hn
    rw [hn] at hcore
    simp only [if_true] at hcore
    exact ⟨by simpa using hcore, mapGet_mem _ _ _ (by simpa using hcore)⟩

/-- C2 (witness): on the singleton collections with local timestamp 0
and remote timestamp 5 the merged entry is the remote record marked
synced, and with local timestamp 9 the local record wins flagged
unsynced. -/
theorem mergeData_remote_wins_upto_synced_witness :
    (mapGet (mergeData [recLocalOld] (some [recRemoteNew]))
        recLocalOld.id = some (setSynced true recRemoteNew) ∧
     setSynced true recRemoteNew ∈
        mergeData [recLocalOld] (some [recRemoteNew])) ∧
    (mapGet (mergeData [recLocalNewest] (some [recRemoteNew]))
        recLocalNewest.id = some (setSynced false recLocalNewest) ∧
     setSynced false recLocalNewest ∈
        mergeData [recLocalNewest] (some [recRemoteNew])) :=
  ⟨(mergeData_remote_wins_upto_synced [recLocalOld] [recRemoteNew]
      recLocalOld recRemoteNew (by decide) (by decide) (by decide)
      (by decide) (by decide)).1 (by decide),
   (mergeData_remote_wins_upto_synced [recLocalNewest] [recRemoteNew]
      recLocalNewest recRemoteNew (by decide) (by decide) (by decide)
      (by decide) (by decide)).2 (by decide)⟩

/-- C2 (counterexample): the claim's field-for-field conclusion fails:
with local timestamp 0 at or before remote timestamp 5 the merged
collection does not contain the remote record itself, because its
absent `synced` property has been overwritten with `true`. -/
theorem mergeData_remote_not_field_for_field :
    recLocalOld.id = recRemoteNew.id ∧
    recLocalOld.updatedAt = some 0 ∧
    recRemoteNew.updatedAt = some 5 ∧
    (0 : Int) ≤ 5 ∧
    recRemoteNew ∉ mergeData [recLocalOld] (some [recRemoteNew]) := by
  decide

/-- C10: a local record can displace the remote record with its id only
when both carry a parseable `updatedAt` and the local one is strictly
newer: whenever either side's timestamp is missing, the merged entry is
unconditionally the remote record (marked synced). -/
theorem mergeData_missing_timestamp_remote_wins (L R : List SyncRec)
    (l r : SyncRec) (hL : (L.map SyncRec.id).Nodup)
    (hR : (R.map SyncRec.id).Nodup) (hl : l ∈ L) (hr : r ∈ R)
    (hid : l.id = r.id)
    (hmiss : l.updatedAt = none ∨ r.updatedAt = none) :
    mapGet (mergeData L (some R)) l.id = some (setSynced true r) ∧
    setSynced true r ∈ mergeData L (some R) := by
  have hcore := mergeData_get L R l r hL hR hl hr hid
  rw [localNewer_none l r hmiss] at hcore
  simp only [if_false, Bool.false_eq_true] at hcore
  exact ⟨by simpa using hcore, mapGet_mem _ _ _ (by simpa using hcore)⟩

/-- C10 (witness): a local record without a timestamp never overrides
the remote record with its id. -/
theorem mergeData_missing_timestamp_remote_wins_witness :
    mapGet (mergeData [recLocalNoStamp] (some [recRemoteNew]))
        recLocalNoStamp.id = some (setSynced true recRemoteNew) ∧
    setSynced true recRemoteNew ∈
      mergeData [recLocalNoStamp] (some [recRemoteNew]) :=
  mergeData_missing_timestamp_remote_wins [recLocalNoStamp] [recRemoteNew]
    recLocalNoStamp recRemoteNew (by decide) (by decide) (by decide)
    (by decide) (by decide) (by decide)

/-- Seeding preserves distinctness of the ids. -/
theorem seedFold_nodup :
    ∀ (R m : List SyncRec), (m.map SyncRec.id).Nodup →
      ((R.foldl (fun m item => mapSet m (setSynced true item)) m).map
          SyncRec.id).Nodup
  | [], _, h => h
  | x :: xs, m, h => by
    rw [List.foldl_cons]
    exact seedFold_nodup xs _ (mapSet_nodup m (setSynced true x) h)

/-- A merge step preserves distinctness of the ids. -/
theorem mergeStep_nodup (m : List SyncRec) (item : SyncRec)
    (h : (m.map SyncRec.id).Nodup) :
    ((mergeStep m item).map SyncRec.id).Nodup := by
  unfold mergeStep
  cases mapGet m item.id with
  | none => exact mapSet_nodup m _ h
  | some r =>
    by_cases hn : localNewer item r
    · simpa [hn] using mapSet_nodup m (setSynced false item) h
    · simpa [hn] using h

/-- Folding local records preserves distinctness of the ids. -/
theorem foldl_mergeStep_nodup :
    ∀ (L m : List SyncRec), (m.map SyncRec.id).Nodup →
      ((L.foldl mergeStep m).map SyncRec.id).Nodup
  | [], _, h => h
  | x :: xs, m, h => by
    rw [List.foldl_cons]
    exact foldl_mergeStep_nodup xs _ (mergeStep_nodup m x h)

/-- A merged collection has pairwise-distinct ids. -/
theorem mergeData_ids_nodup (L R : List SyncRec) :
    ((mergeData L (some R)).map SyncRec.id).Nodup := by
  unfold mergeData seedRemote
  exact foldl_mergeStep_nodup L _ (seedFold_nodup R [] (by simp))

/-- Seeding records with fresh distinct ids appends them in order,
each marked synced. -/
theorem seedFold_append :
    ∀ (M acc : List SyncRec), (M.map SyncRec.id).Nodup →
      (∀ x ∈ M, ∀ y ∈ acc, y.id ≠ x.id) →
      M.foldl (fun m item => mapSet m (setSynced true item)) acc =
        acc ++ M.map (setSynced true)
  | [], acc, _, _ => by simp
  | x :: xs, acc, hnd, hdisj => by
    rw [List.foldl_cons]
    have hany : acc.any (fun y => y.id == (setSynced true x).id) = false := by
      rw [Bool.eq_false_iff]
      intro hc
      rcases List.any_eq_true.mp hc with ⟨y, hy, hyx⟩
      exact hdisj x (List.mem_cons_self x xs) y hy (by simpa using hyx)
    have hstep : mapSet acc (setSynced true x) = acc ++ [setSynced true x] := by
      unfold mapSet
      rw [hany]
      simp
    rw [hstep]
    have hnd2 : (xs.map SyncRec.id).Nodup := by
      simp only [List.map_cons, List.nodup_cons] at hnd
      exact hnd.2
    have hdisj2 : ∀ z ∈ xs, ∀ y ∈ acc ++ [setSynced true x], y.id ≠ z.id := by
      intro z hz y hy
      rcases List.mem_append.mp hy with hy | hy
      · exact hdisj z (List.mem_cons_of_mem x hz) y hy
      · rcases List.mem_singleton.mp hy with rfl
        simp only [setSynced]
        intro hc
        simp only [List.map_cons, List.nodup_cons] at hnd
        exact hnd.1 (hc ▸ List.mem_map_of_mem SyncRec.id hz)
    rw [seedFold_append xs _ hnd2 hdisj2]
    simp

/-- Looking a member up in the synced-marked copy of a
distinct-id collection returns its synced-marked copy. -/
theorem mapGet_map_setSynced (b : Bool) :
    ∀ (M : List SyncRec) (l : SyncRec), (M.map SyncRec.id).Nodup →
      l ∈ M → mapGet (M.map (setSynced b)) l.id = some (setSynced b l)
  | [], l, _, hl => absurd hl (List.not_mem_nil l)
  | x :: xs, l, hnd, hl => by
    rcases List.mem_cons.mp hl with hlx | hltl
    · subst hlx
      unfold mapGet
      simp only [List.map_cons]
      exact findCons_pos (fun y => y.id == l.id) (setSynced b l) _
        (by simp [setSynced])
    · simp only [List.map_cons, List.nodup_cons] at hnd
      have hxl : (setSynced b x).id ≠ l.id := by
        simp only [setSynced]
        intro hc
        exact hnd.1 (hc ▸ List.mem_map_of_mem SyncRec.id hltl)
      unfold mapGet
      simp only [List.map_cons]
      rw [findCons_neg (fun y => y.id == l.id) (setSynced b x) _
        (by simp [hxl])]
      exact mapGet_map_setSynced b xs l hnd.2 hltl

/-- A fold whose every step fixes the accumulator fixes it overall. -/
theorem foldl_id_of_steps :
    ∀ (L : List SyncRec) (m : List SyncRec),
      (∀ l ∈ L, mergeStep m l = m) → L.foldl mergeStep m = m
  | [], _, _ => rfl
  | x :: xs, m, h => by
    rw [List.foldl_cons, h x (List.mem_cons_self x xs)]
    exact foldl_id_of_steps xs m (fun l hl => h l (List.mem_cons_of_mem x hl))

/-- Merging a distinct-id collection with itself returns its
synced-marked copy. -/
theorem mergeData_self (M : List SyncRec)
    (hnd : (M.map SyncRec.id).Nodup) :
    mergeData M (some M) = M.map (setSynced true) := by
  unfold mergeData seedRemote
  simp only
  rw [seedFold_append M [] hnd (by simp)]
  simp only [List.nil_append]
  apply foldl_id_of_steps
  intro l hl
  unfold mergeStep
  rw [mapGet_map_setSynced true M l hnd hl]
  have : localNewer l (setSynced true l) = false := by
    rw [localNewer_setSynced]
    exact localNewer_self l
  simp [this]

/-- C8 (amended): re-merging a merge result with itself reproduces it
except that every record's synced flag is forced to true; in
particular the merge is idempotent on every record apart from that
bookkeeping flag. -/
theorem merge_idempotent_upto_synced (L R : List SyncRec) :
    mergeData (mergeData L (some R)) (some (mergeData L (some R))) =
      (mergeData L (some R)).map (setSynced true) :=
  mergeData_self (mergeData L (some R)) (mergeData_ids_nodup L R)

/-- C8 (counterexample): the claim's literal equality fails: the merge
of local timestamp 9 against remote timestamp 5 keeps the local record
flagged synced = false, so re-merging that result with itself (which
flips the flag to true) does not reproduce the collection. -/
theorem merge_not_idempotent_counterexample :
    mergeData (mergeData [recLocalNewest] (some [recRemoteNew]))
        (some (mergeData [recLocalNewest] (some [recRemoteNew]))) ≠
      mergeData [recLocalNewest] (some [recRemoteNew]) := by
  decide

/-- `awardExists` decides membership of the triple among the
collection's triples. -/
theorem awardExists_iff (E : List AwardUnlock) (aid sid k : String) :
    awardExists E aid sid k = true ↔ (aid, sid, k) ∈ E.map awardTriple := by
  unfold awardExists
  rw [List.any_eq_true]
  constructor
  · rintro ⟨a, ha, hp⟩
    simp only [Bool.and_eq_true, beq_iff_eq] at hp
    refine List.mem_map.mpr ⟨a, ha, ?_⟩
    unfold awardTriple
    rw [hp.1.1, hp.1.2, hp.2]
  · intro hm
    rcases List.mem_map.mp hm with ⟨a, ha, ht⟩
    refine ⟨a, ha, ?_⟩
    unfold awardTriple at ht
    simp only [Prod.mk.injEq] at ht
    simp [ht.1, ht.2.1, ht.2.2]

/-- A guarded push preserves triple-distinctness of the batch and its
disjointness from the persisted awards. -/
theorem pushIfNew_pres (E acc : List AwardUnlock) (cand : Option AwardUnlock)
    (h1 : (acc.map awardTriple).Nodup)
    (h2 : ∀ a ∈ acc, awardTriple a ∉ E.map awardTriple) :
    ((pushIfNew E acc cand).map awardTriple).Nodup ∧
      ∀ a ∈ pushIfNew E acc cand, awardTriple a ∉ E.map awardTriple := by
  unfold pushIfNew
  cases cand with
  | none => exact ⟨h1, h2⟩
  | some a =>
    have hred : (match some a with
        | none => acc
        | some a =>
          if awardExists (E ++ acc) a.awardId a.studentId a.periodKey
          then acc else acc ++ [a])
        = (if awardExists (E ++ acc) a.awardId a.studentId a.periodKey
           then acc else acc ++ [a]) := rfl
    rw [hred]
    by_cases hex : awardExists (E ++ acc) a.awardId a.studentId a.periodKey
      = true
    · rw [if_pos hex]
      exact ⟨h1, h2⟩
    · rw [if_neg hex]
      have hnot : (a.awardId, a.studentId, a.periodKey) ∉
          (E ++ acc).map awardTriple := by
        intro hc
        exact hex ((awardExists_iff (E ++ acc) _ _ _).mpr hc)
      rw [List.map_append] at hnot
      have hnotE : awardTriple a ∉ E.map awardTriple := fun hc =>
        hnot (List.mem_append.mpr (Or.inl hc))
      have hnotAcc : awardTriple a ∉ acc.map awardTriple := fun hc =>
        hnot (List.mem_append.mpr (Or.inr hc))
      constructor
      · rw [List.map_append]
        simp only [List.map_cons, List.map_nil]
        rw [List.nodup_append]
        exact ⟨h1, List.nodup_singleton _,
          by simpa [List.disjoint_singleton] using hnotAcc⟩
      · intro b hb
        rcases List.mem_append.mp hb with hb | hb
        · exact h2 b hb
        · rcases List.mem_singleton.mp hb with rfl
          exact hnotE

/-- One class step of the monthly batch preserves the invariant. -/
theorem runMonthlyAwardsStep_pres (env : ClockEnv)
    (students : List Student) (sessions : List RegisterSession)
    (points : List PointEvent) (E acc : List AwardUnlock)
    (classId : String) (h1 : (acc.map awardTriple).Nodup)
    (h2 : ∀ a ∈ acc, awardTriple a ∉ E.map awardTriple) :
    ((runMonthlyAwardsStep env students sessions points E acc
        classId).map awardTriple).Nodup ∧
      ∀ a ∈ runMonthlyAwardsStep env students sessions points E acc
          classId, awardTriple a ∉ E.map awardTriple := by
  unfold runMonthlyAwardsStep
  exact pushIfNew_pres E _ _
    (pushIfNew_pres E _ _
      (pushIfNew_pres E _ _ h1 h2).1 (pushIfNew_pres E _ _ h1 h2).2).1
    (pushIfNew_pres E _ _
      (pushIfNew_pres E _ _ h1 h2).1 (pushIfNew_pres E _ _ h1 h2).2).2

/-- Folding class steps preserves the invariant. -/
theorem runMonthly_fold_pres (env : ClockEnv) (students : List Student)
    (sessions : List RegisterSession) (points : List PointEvent)
    (E : List AwardUnlock) :
    ∀ (classIds : List String) (acc : List AwardUnlock),
      (acc.map awardTriple).Nodup →
      (∀ a ∈ acc, awardTriple a ∉ E.map awardTriple) →
      ((classIds.foldl
          (runMonthlyAwardsStep env students sessions points E)
          acc).map awardTriple).Nodup ∧
        ∀ a ∈ classIds.foldl
            (runMonthlyAwardsStep env students sessions points E) acc,
          awardTriple a ∉ E.map awardTriple
  | [], acc, h1, h2 => ⟨h1, h2⟩
  | c :: cs, acc, h1, h2 => by
    rw [List.foldl_cons]
    have hstep := runMonthlyAwardsStep_pres env students sessions points
      E acc c h1 h2
    exact runMonthly_fold_pres env students sessions points E cs _
      hstep.1 hstep.2

/-- The single guarded emission of `runAwardsOnRegisterClose`
preserves the duplicate-freedom invariant. -/
theorem closeGuard_pres (E : List AwardUnlock) (cand : Option AwardUnlock) :
    (((match cand with
       | none => ([] : List AwardUnlock)
       | some a =>
         if awardExists E a.awardId a.studentId a.periodKey then []
         else [a]).map awardTriple).Nodup) ∧
      ∀ b ∈ (match cand with
             | none => ([] : List AwardUnlock)
             | some a =>
               if awardExists E a.awardId a.studentId a.periodKey then []
               else [a]),
        awardTriple b ∉ E.map awardTriple := by
  cases cand with
  | none => exact ⟨by simp, by simp⟩
  | some a =>
    have hred : (match some a with
        | none => ([] : List AwardUnlock)
        | some a =>
          if awardExists E a.awardId a.studentId a.periodKey then []
          else [a])
        = (if awardExists E a.awardId a.studentId a.periodKey then []
           else [a]) := rfl
    rw [hred]
    by_cases hex : awardExists E a.awardId a.studentId a.periodKey = true
    · rw [if_pos hex]
      exact ⟨by simp, by simp⟩
    · rw [if_neg hex]
      refine ⟨by simp, ?_⟩
      intro b hb
      rcases List.mem_singleton.mp hb with rfl
      intro hcmem
      exact hex ((awardExists_iff E _ _ _).mpr hcmem)

/-- C3: a batch award run never emits an award whose
`(awardId, studentId, periodKey)` triple occurs among the persisted
awards or earlier in the same batch: the emitted triples are pairwise
distinct and disjoint from the existing set, for `runMonthlyAwards`
across all classes of one pass, for a second run over the
existing-awards set extended with the first run's output, and for
`runAwardsOnRegisterClose`. -/
theorem awards_batch_no_duplicate_triples :
    ∀ (env env2 : ClockEnv) (students : List Student)
      (sessions : List RegisterSession) (points : List PointEvent)
      (existingAwards : List AwardUnlock) (classId : String),
      (((runMonthlyAwards env students sessions points
          existingAwards).map awardTriple).Nodup ∧
        ∀ a ∈ runMonthlyAwards env students sessions points existingAwards,
          awardTriple a ∉ existingAwards.map awardTriple) ∧
      (∀ a ∈ runMonthlyAwards env2 students sessions points
          (existingAwards ++
            runMonthlyAwards env students sessions points existingAwards),
        awardTriple a ∉
          (existingAwards ++
            runMonthlyAwards env students sessions points
              existingAwards).map awardTriple) ∧
      (((runAwardsOnRegisterClose env classId students sessions points
          existingAwards).map awardTriple).Nodup ∧
        ∀ a ∈ runAwardsOnRegisterClose env classId students sessions
            points existingAwards,
          awardTriple a ∉ existingAwards.map awardTriple) := by
  intro env env2 students sessions points existingAwards classId
  refine ⟨?_, ?_, ?_⟩
  · exact runMonthly_fold_pres env students sessions points
      existingAwards _ [] (by simp) (by simp)
  · exact (runMonthly_fold_pres env2 students sessions points
      (existingAwards ++
        runMonthlyAwards env students sessions points existingAwards)
      _ [] (by simp) (by simp)).2
  · unfold runAwardsOnRegisterClose
    exact closeGuard_pres existingAwards _

/-- Unfolding of the descending-key comparator combinator. -/
theorem keyDescLE_iff {α β : Type} [LinearOrder β] (k : α → β)
    (tie : α → α → Bool) (a b : α) :
    keyDescLE k tie a b = true ↔
      (k b < k a ∨ (k a = k b ∧ tie a b = true)) := by
  unfold keyDescLE
  by_cases e : k a = k b
  · rw [if_pos e]
    constructor
    · intro h
      exact Or.inr ⟨e, h⟩
    · rintro (hlt | ⟨_, h⟩)
      · rw [e] at hlt
        exact absurd hlt (lt_irrefl _)
      · exact h
  · rw [if_neg e]
    constructor
    · intro h
      exact Or.inl (of_decide_eq_true h)
    · rintro (hlt | ⟨he, _⟩)
      · exact decide_eq_true hlt
      · exact absurd he e

/-- The descending-key comparator is transitive when its tie-break
is. -/
theorem keyDescLE_trans {α β : Type} [LinearOrder β] (k : α → β)
    (tie : α → α → Bool)
    (ht : ∀ a b c, tie a b = true → tie b c = true → tie a c = true)
    (a b c : α) (h1 : keyDescLE k tie a b = true)
    (h2 : keyDescLE k tie b c = true) : keyDescLE k tie a c = true := by
  rw [keyDescLE_iff] at h1 h2 ⊢
  rcases h1 with h1 | ⟨e1, t1⟩
  · rcases h2 with h2 | ⟨e2, t2⟩
    · exact Or.inl (h2.trans h1)
    · exact Or.inl (e2 ▸ h1)
  · rcases h2 with h2 | ⟨e2, t2⟩
    · exact Or.inl (h2.trans_eq e1.symm)
    · exact Or.inr ⟨e1.trans e2, ht a b c t1 t2⟩

/-- The descending-key comparator is total when its tie-break is. -/
theorem keyDescLE_total {α β : Type} [LinearOrder β] (k : α → β)
    (tie : α → α → Bool)
    (htot : ∀ a b, (tie a b || tie b a) = true) (a b : α) :
    (keyDescLE k tie a b || keyDescLE k tie b a) = true := by
  rcases lt_trichotomy (k a) (k b) with h | h | h
  · apply Bool.or_eq_true_iff.mpr
    right
    rw [keyDescLE_iff]
    exact Or.inl h
  · rcases Bool.or_eq_true_iff.mp (htot a b) with ht | ht
    · apply Bool.or_eq_true_iff.mpr
      left
      rw [keyDescLE_iff]
      exact Or.inr ⟨h, ht⟩
    · apply Bool.or_eq_true_iff.mpr
      right
      rw [keyDescLE_iff]
      exact Or.inr ⟨h.symm, ht⟩
  · apply Bool.or_eq_true_iff.mpr
    left
    rw [keyDescLE_iff]
    exact Or.inl h

/-- The name tie-break is transitive. -/
theorem nameAscLE_trans (a b c : AwardCandidate)
    (h1 : nameAscLE a b = true) (h2 : nameAscLE b c = true) :
    nameAscLE a c = true := by
  unfold nameAscLE at *
  exact decide_eq_true ((of_decide_eq_true h1).trans (of_decide_eq_true h2))

/-- The name tie-break is total. -/
theorem nameAscLE_total (a b : AwardCandidate) :
    (nameAscLE a b || nameAscLE b a) = true := by
  unfold nameAscLE
  rcases le_total a.student.name b.student.name with h | h
  · exact Bool.or_eq_true_iff.mpr (Or.inl (decide_eq_true h))
  · exact Bool.or_eq_true_iff.mpr (Or.inr (decide_eq_true h))

/-- The Student of the Month/Year comparator is transitive. -/
theorem candidateCompareLE_trans (a b c : AwardCandidate)
    (h1 : candidateCompareLE a b = true)
    (h2 : candidateCompareLE b c = true) :
    candidateCompareLE a c = true :=
  keyDescLE_trans _ _
    (keyDescLE_trans _ _ (keyDescLE_trans _ _ nameAscLE_trans)) a b c h1 h2

/-- The Student of the Month/Year comparator is total. -/
theorem candidateCompareLE_total (a b : AwardCandidate) :
    (candidateCompareLE a b || candidateCompareLE b a) = true :=
  keyDescLE_total _ _
    (keyDescLE_total _ _ (keyDescLE_total _ _ nameAscLE_total)) a b

/-- The Most Improved comparator is transitive. -/
theorem miCompareLE_trans (a b c : AwardCandidate)
    (h1 : miCompareLE a b = true) (h2 : miCompareLE b c = true) :
    miCompareLE a c = true :=
  keyDescLE_trans _ _ (keyDescLE_trans _ _ nameAscLE_trans) a b c h1 h2

/-- The Most Improved comparator is total. -/
theorem miCompareLE_total (a b : AwardCandidate) :
    (miCompareLE a b || miCompareLE b a) = true :=
  keyDescLE_total _ _ (keyDescLE_total _ _ nameAscLE_total) a b

/-- The Student of the Month/Year comparator decides exactly the
claimed ranking order. -/
theorem candidateCompareLE_iff (a b : AwardCandidate) :
    candidateCompareLE a b = true ↔ somRankLE a b := by
  unfold candidateCompareLE somRankLE
  rw [keyDescLE_iff]
  constructor
  · rintro (h | ⟨e, h⟩)
    · exact Or.inl h
    · rw [keyDescLE_iff] at h
      rcases h with h | ⟨e2, h⟩
      · exact Or.inr ⟨e, Or.inl h⟩
      · rw [keyDescLE_iff] at h
        rcases h with h | ⟨e3, h⟩
        · exact Or.inr ⟨e, Or.inr ⟨e2, Or.inl h⟩⟩
        · exact Or.inr ⟨e, Or.inr ⟨e2, Or.inr ⟨e3,
            of_decide_eq_true h⟩⟩⟩
  · rintro (h | ⟨e, h | ⟨e2, h | ⟨e3, h⟩⟩⟩)
    · exact Or.inl h
    · exact Or.inr ⟨e, (keyDescLE_iff _ _ _ _).mpr (Or.inl h)⟩
    · exact Or.inr ⟨e, (keyDescLE_iff _ _ _ _).mpr (Or.inr ⟨e2,
        (keyDescLE_iff _ _ _ _).mpr (Or.inl h)⟩)⟩
    · exact Or.inr ⟨e, (keyDescLE_iff _ _ _ _).mpr (Or.inr ⟨e2,
        (keyDescLE_iff _ _ _ _).mpr (Or.inr ⟨e3, decide_eq_true h⟩)⟩)⟩

/-- The Most Improved comparator decides exactly the claimed ranking
order. -/
theorem miCompareLE_iff (a b : AwardCandidate) :
    miCompareLE a b = true ↔ miRankLE a b := by
  unfold miCompareLE miRankLE
  rw [keyDescLE_iff]
  constructor
  · rintro (h | ⟨e, h⟩)
    · exact Or.inl h
    · rw [keyDescLE_iff] at h
      rcases h with h | ⟨e2, h⟩
      · exact Or.inr ⟨e, Or.inl h⟩
      · exact Or.inr ⟨e, Or.inr ⟨e2, of_decide_eq_true h⟩⟩
  · rintro (h | ⟨e, h | ⟨e2, h⟩⟩)
    · exact Or.inl h
    · exact Or.inr ⟨e, (keyDescLE_iff _ _ _ _).mpr (Or.inl h)⟩
    · exact Or.inr ⟨e, (keyDescLE_iff _ _ _ _).mpr (Or.inr ⟨e2,
        decide_eq_true h⟩)⟩

/-- C4: `evaluateStudentOfMonth` scores every non-archived, non-deleted
class student as `0.7 * attendancePct + 0.3 * pointsNorm` — the points
total normalised by the maximum points total among the candidates, 0
when no candidate has positive points — and returns all those
candidates (and nothing else) sorted descending by score, ties broken
by attendance, then points total, then ascending name. -/
theorem evaluateStudentOfMonth_spec :
    ∀ (classId : String) (students : List Student)
      (sessions : List RegisterSession) (points : List PointEvent)
      (rangeFrom rangeTo : Int) (existingAwards : List AwardUnlock),
      (evaluateStudentOfMonth classId students sessions points rangeFrom
          rangeTo existingAwards).Perm
        (scoreRows 0.7 0.3
          (somBase classId students sessions points rangeFrom rangeTo)) ∧
      List.Pairwise somRankLE
        (evaluateStudentOfMonth classId students sessions points rangeFrom
          rangeTo existingAwards) ∧
      (∀ c ∈ evaluateStudentOfMonth classId students sessions points
          rangeFrom rangeTo existingAwards,
        c.student.classId = classId ∧ c.student.archived = false ∧
        c.student.deleted = false ∧
        c.attendancePct01 = (computeAttendanceStatsForStudent c.student
          rangeFrom rangeTo (classSessionsOf classId sessions)).pct01 ∧
        c.pointsTotal = sumPointsForStudent c.student.id classId rangeFrom
          rangeTo points ∧
        c.score = 0.7 * c.attendancePct01 + 0.3 *
          (if 0 < maxPtsOf (somBase classId students sessions points
              rangeFrom rangeTo)
           then (c.pointsTotal : ℚ) / ((maxPtsOf (somBase classId students
              sessions points rangeFrom rangeTo) : Int) : ℚ)
           else 0)) ∧
      (∀ st ∈ students, st.classId = classId → st.archived = false →
        st.deleted = false →
        ∃ c ∈ evaluateStudentOfMonth classId students sessions points
            rangeFrom rangeTo existingAwards, c.student = st) := by
  intro classId students sessions points rangeFrom rangeTo existingAwards
  have hperm : (evaluateStudentOfMonth classId students sessions points
      rangeFrom rangeTo existingAwards).Perm
      (scoreRows 0.7 0.3
        (somBase classId students sessions points rangeFrom rangeTo)) := by
    unfold evaluateStudentOfMonth
    exact List.mergeSort_perm _ _
  refine ⟨hperm, ?_, ?_, ?_⟩
  · have hs := List.sorted_mergeSort candidateCompareLE_trans
      candidateCompareLE_total
      (scoreRows 0.7 0.3
        (somBase classId students sessions points rangeFrom rangeTo))
    unfold evaluateStudentOfMonth
    exact hs.imp (fun h => (candidateCompareLE_iff _ _).mp h)
  · intro c hc
    have hcrows : c ∈ scoreRows 0.7 0.3
        (somBase classId students sessions points rangeFrom rangeTo) :=
      hperm.mem_iff.mp hc
    unfold scoreRows at hcrows
    simp only [List.mem_map] at hcrows
    rcases hcrows with ⟨r, hr, rfl⟩
    unfold somBase at hr
    simp only [List.mem_map] at hr
    rcases hr with ⟨st, hst, rfl⟩
    unfold classStudentsOf at hst
    rw [List.mem_filter] at hst
    have hprops := hst.2
    simp only [Bool.and_eq_true, beq_iff_eq, Bool.not_eq_true'] at hprops
    exact ⟨hprops.1.1, hprops.1.2, hprops.2, rfl, rfl, rfl⟩
  · intro st hst h1 h2 h3
    have hmem : st ∈ classStudentsOf classId students := by
      unfold classStudentsOf
      rw [List.mem_filter]
      exact ⟨hst, by simp [h1, h2, h3]⟩
    have hbase : (st,
        (computeAttendanceStatsForStudent st rangeFrom rangeTo
          (classSessionsOf classId sessions)).pct01,
        sumPointsForStudent st.id classId rangeFrom rangeTo points) ∈
        somBase classId students sessions points rangeFrom rangeTo := by
      unfold somBase
      exact List.mem_map_of_mem _ hmem
    have hrow : ∃ c ∈ scoreRows 0.7 0.3
        (somBase classId students sessions points rangeFrom rangeTo),
        c.student = st := by
      unfold scoreRows
      refine ⟨_, List.mem_map_of_mem _ hbase, rfl⟩
    rcases hrow with ⟨c, hc, hcst⟩
    exact ⟨c, hperm.mem_iff.mpr hc, hcst⟩

/-- C5: `evaluateMostImproved` excludes every class student with fewer
than 4 eligible data points (non-excused marked sessions inside the
academic-year window) from the returned ranking, includes every one
with at least 4, scores each included student by the
ordinary-least-squares slope of the binary attended outcome against
days since the window start, and sorts descending by slope with ties
broken by session count then name. -/
theorem evaluateMostImproved_spec :
    ∀ (env : ClockEnv) (classId : String) (students : List Student)
      (sessions : List RegisterSession),
      (∀ c ∈ evaluateMostImproved env classId students sessions,
        c.student ∈ classStudentsOf classId students ∧
        4 ≤ (miRows c.student env.ayStart env.ayEnd
          (classSessionsOf classId sessions)).length ∧
        c.sessionsUsed = some (miRows c.student env.ayStart env.ayEnd
          (classSessionsOf classId sessions)).length ∧
        c.score = linearRegressionSlope
          (((miRows c.student env.ayStart env.ayEnd
              (classSessionsOf classId sessions)).mergeSort tDaysLE).map
            (fun p => p.1))
          (((miRows c.student env.ayStart env.ayEnd
              (classSessionsOf classId sessions)).mergeSort tDaysLE).map
            (fun p => p.2)) ∧
        c.slopePerDay = some c.score) ∧
      (∀ st ∈ classStudentsOf classId students,
        4 ≤ (miRows st env.ayStart env.ayEnd
          (classSessionsOf classId sessions)).length →
        ∃ c ∈ evaluateMostImproved env classId students sessions,
          c.student = st) ∧
      (∀ st : Student,
        (miRows st env.ayStart env.ayEnd
          (classSessionsOf classId sessions)).length < 4 →
        ∀ c ∈ evaluateMostImproved env classId students sessions,
          c.student ≠ st) ∧
      List.Pairwise miRankLE
        (evaluateMostImproved env classId students sessions) := by
  intro env classId students sessions
  have hperm : (evaluateMostImproved env classId students sessions).Perm
      ((classStudentsOf classId students).filterMap (fun st =>
        let sessRows := miRows st env.ayStart env.ayEnd
          (classSessionsOf classId sessions)
        if sessRows.length < 4 then none
        else
          let sorted := sessRows.mergeSort tDaysLE
          let slope := linearRegressionSlope (sorted.map (·.1))
            (sorted.map (·.2))
          some { student := st
                 score := slope
                 attendancePct01 := 0
                 pointsTotal := 0
                 slopePerDay := some slope
                 sessionsUsed := some sessRows.length })) := by
    unfold evaluateMostImproved
    exact List.mergeSort_perm _ _
  have hmem : ∀ c ∈ evaluateMostImproved env classId students sessions,
      c.student ∈ classStudentsOf classId students ∧
      4 ≤ (miRows c.student env.ayStart env.ayEnd
        (classSessionsOf classId sessions)).length ∧
      c.sessionsUsed = some (miRows c.student env.ayStart env.ayEnd
        (classSessionsOf classId sessions)).length ∧
      c.score = linearRegressionSlope
        (((miRows c.student env.ayStart env.ayEnd
            (classSessionsOf classId sessions)).mergeSort tDaysLE).map
          (fun p => p.1))
        (((miRows c.student env.ayStart env.ayEnd
            (classSessionsOf classId sessions)).mergeSort tDaysLE).map
          (fun p => p.2)) ∧
      c.slopePerDay = some c.score := by
    intro c hc
    have hcrows := hperm.mem_iff.mp hc
    rcases List.mem_filterMap.mp hcrows with ⟨st, hst, hf⟩
    by_cases hlen : (miRows st env.ayStart env.ayEnd
        (classSessionsOf classId sessions)).length < 4
    · rw [if_pos hlen] at hf
      exact absurd hf (by simp)
    · rw [if_neg hlen] at hf
      have hceq := Option.some.inj hf
      subst hceq
      exact ⟨hst, Nat.le_of_not_lt hlen, rfl, rfl, rfl⟩
  refine ⟨hmem, ?_, ?_, ?_⟩
  · intro st hst hlen
    refine ⟨{ student := st
              score := linearRegressionSlope
                (((miRows st env.ayStart env.ayEnd
                    (classSessionsOf classId sessions)).mergeSort
                  tDaysLE).map (fun p => p.1))
                (((miRows st env.ayStart env.ayEnd
                    (classSessionsOf classId sessions)).mergeSort
                  tDaysLE).map (fun p => p.2))
              attendancePct01 := 0
              pointsTotal := 0
              slopePerDay := some (linearRegressionSlope
                (((miRows st env.ayStart env.ayEnd
                    (classSessionsOf classId sessions)).mergeSort
                  tDaysLE).map (fun p => p.1))
                (((miRows st env.ayStart env.ayEnd
                    (classSessionsOf classId sessions)).mergeSort
                  tDaysLE).map (fun p => p.2)))
              sessionsUsed := some (miRows st env.ayStart env.ayEnd
                (classSessionsOf classId sessions)).length },
      hperm.mem_iff.mpr (List.mem_filterMap.mpr ⟨st, hst, ?_⟩), rfl⟩
    rw [if_neg (Nat.not_lt.mpr hlen)]
  · intro st hlt c hc heq
    have h4 := (hmem c hc).2.1
    rw [heq] at h4
    exact absurd h4 (Nat.not_le.mpr hlt)
  · have hs := List.sorted_mergeSort miCompareLE_trans miCompareLE_total
      ((classStudentsOf classId students).filterMap (fun st =>
        let sessRows := miRows st env.ayStart env.ayEnd
          (classSessionsOf classId sessions)
        if sessRows.length < 4 then none
        else
          let sorted := sessRows.mergeSort tDaysLE
          let slope := linearRegressionSlope (sorted.map (·.1))
            (sorted.map (·.2))
          some { student := st
                 score := slope
                 attendancePct01 := 0
                 pointsTotal := 0
                 slopePerDay := some slope
                 sessionsUsed := some sessRows.length }))
    unfold evaluateMostImproved
    exact hs.imp (fun h => (miCompareLE_iff _ _).mp h)

/-- C6 (amended): `evaluateStudentOfMonth` applies no anti-repeat
adjustment: although the source signature accepts the existing awards,
the body never reads them, so the returned ranking is identical for
any two existing-awards inputs and a previous winner ranked first
stays first. -/
theorem evaluateStudentOfMonth_ignores_existing_awards :
    ∀ (classId : String) (students : List Student)
      (sessions : List RegisterSession) (points : List PointEvent)
      (rangeFrom rangeTo : Int) (e1 e2 : List AwardUnlock),
      evaluateStudentOfMonth classId students sessions points rangeFrom
          rangeTo e1 =
        evaluateStudentOfMonth classId students sessions points rangeFrom
          rangeTo e2 := by
  intro classId students sessions points rangeFrom rangeTo e1 e2
  rfl

/-- C6 (counterexample): with Alice recorded as the previous period's
Student of the Month in the existing awards and still ranked first,
the evaluator returns her first and Bob second — no swap with second
place occurs, contradicting the claimed anti-repeat rule. -/
theorem no_anti_repeat_swap_counterexample :
    awardExists [priorWinnerAward] "student_of_month" "alice" "2025-09"
        = true ∧
    priorWinnerAward.awardId = "student_of_month" ∧
    priorWinnerAward.studentId = "alice" ∧
    (evaluateStudentOfMonth "c1" c6Students c6Sessions [] 1 100
        [priorWinnerAward]).map (fun c => c.student.id) =
      ["alice", "bob"] := by
  refine ⟨by decide, rfl, rfl, ?_⟩
  have hA : computeAttendanceStatsForStudent c6Alice 1 100
      (classSessionsOf "c1" c6Sessions) =
      { attended := 2, counted := 2, pct01 := 1 } := by
    have h1 : attCounts c6Alice 1 100 (classSessionsOf "c1" c6Sessions)
        = (2, 2) := by decide
    simp [computeAttendanceStatsForStudent, h1]
  have hB : computeAttendanceStatsForStudent c6Bob 1 100
      (classSessionsOf "c1" c6Sessions) =
      { attended := 0, counted := 2, pct01 := 0 } := by
    have h1 : attCounts c6Bob 1 100 (classSessionsOf "c1" c6Sessions)
        = (0, 2) := by decide
    simp [computeAttendanceStatsForStudent, h1]
  have hcs : classStudentsOf "c1" c6Students = [c6Alice, c6Bob] := by
    decide
  have hbase : somBase "c1" c6Students c6Sessions [] 1 100 =
      [(c6Alice, (1 : ℚ), (0 : Int)), (c6Bob, (0 : ℚ), (0 : Int))] := by
    simp [somBase, hcs, hA, hB, sumPointsForStudent]
  have hrows : scoreRows 0.7 0.3
      (somBase "c1" c6Students c6Sessions [] 1 100) =
      [c6AliceRow, c6BobRow] := by
    rw [hbase]
    simp [scoreRows, maxPtsOf, c6AliceRow, c6BobRow]
    norm_num
  have hsorted : List.Pairwise (fun a b => candidateCompareLE a b = true)
      [c6AliceRow, c6BobRow] := by
    refine List.Pairwise.cons ?_ (List.pairwise_singleton _ _)
    intro b hb
    rcases List.mem_singleton.mp hb with rfl
    norm_num [candidateCompareLE, keyDescLE, c6AliceRow, c6BobRow]
  have hout : evaluateStudentOfMonth "c1" c6Students c6Sessions [] 1 100
      [priorWinnerAward] = [c6AliceRow, c6BobRow] := by
    unfold evaluateStudentOfMonth
    rw [hrows]
    exact List.mergeSort_of_sorted hsorted
  rw [hout]
  rfl
